import Mathlib

/-!
Verification model of the `named-retry` crate (`src/lib.rs`).

The crate exposes one value type, `Retry`, and one operation, `Retry::run`,
which invokes a fallible asynchronous operation up to `attempts` times with
exponential backoff and optional jitter between attempts.

Modelling decisions (shallow embedding):

* `std::time::Duration` is modelled as an exact non-negative rational number
  of seconds (`Duration`); the nanosecond quantisation of the Rust type is
  immaterial to the properties below.
* `f64` values that actually flow through arithmetic (`delay_factor`, the
  jitter multiplier) are modelled as exact rationals; every finite double is
  a rational number.  The one place where a non-finite double matters — a NaN
  `delay_factor` meeting the `assert!` on entry to `run` — is modelled
  separately and faithfully by the `F64` type below.
* The caller-supplied operation `func` (an `AsyncFnMut` in Rust) is modelled
  as a pure function of the two quantities that distinguish one invocation
  from another inside a single `run` call: the 0-based invocation index and
  the current simulated time (the clock starts at 0 and advances exactly by
  the durations slept between attempts).
* The global random generator `fastrand::f64()` is modelled as a stream
  `rng : Nat → ℚ` of draws, consumed in order: the k-th sleep of a `run`
  call uses draw `rng k`.
* `run` returns a `RunResult`: the outcome (`Ok`, `Err`, or abnormal
  termination by `assert!`/`unreachable!`, with its message) together with
  the observable trace — the start time of every invocation of `func`, every
  slept duration, and every error handed to the `warn!` sink.
-/

/-- Model of `std::time::Duration`: an exact amount of seconds.  The Rust
type cannot represent negative spans, hence the `nonneg` field. -/
structure Duration where
  secs : ℚ
  nonneg : 0 ≤ secs

/-- Model of `Duration::ZERO`. -/
def Duration.ZERO : Duration := ⟨0, le_refl 0⟩

instance : LE Duration := ⟨fun a b => a.secs ≤ b.secs⟩

instance (a b : Duration) : Decidable (a ≤ b) :=
  inferInstanceAs (Decidable (a.secs ≤ b.secs))

/-- Model of the `Retry` configuration struct (src/lib.rs:16-31).
`attempts` is a `u32` in the source, modelled as `Nat` (no arithmetic in the
crate can overflow it); `delay_factor` is a finite `f64`, modelled as an
exact rational. -/
structure Retry where
  name : String
  attempts : Nat
  base_delay : Duration
  delay_factor : ℚ
  enable_jitter : Bool

/-- Model of `Retry::new` (src/lib.rs:35-43): default parameters. -/
def Retry.new (name : String) : Retry :=
  { name := name
    attempts := 3
    base_delay := Duration.ZERO
    delay_factor := 1
    enable_jitter := false }

/-- Model of the builder method `Retry::attempts` (src/lib.rs:46-49); named
`set_attempts` here because the field accessor already takes the name. -/
def Retry.set_attempts (r : Retry) (attempts : Nat) : Retry :=
  { r with attempts := attempts }

/-- Model of the builder method `Retry::base_delay` (src/lib.rs:52-55). -/
def Retry.set_base_delay (r : Retry) (base_delay : Duration) : Retry :=
  { r with base_delay := base_delay }

/-- Model of the builder method `Retry::delay_factor` (src/lib.rs:58-61). -/
def Retry.set_delay_factor (r : Retry) (delay_factor : ℚ) : Retry :=
  { r with delay_factor := delay_factor }

/-- Model of the builder method `Retry::jitter` (src/lib.rs:64-67). -/
def Retry.jitter (r : Retry) (enabled : Bool) : Retry :=
  { r with enable_jitter := enabled }

/-- Model of `Retry::apply_jitter` (src/lib.rs:69-76).  `rand` is the value
drawn from `fastrand::f64()`, uniform in `[0, 1)`; the source computes
`delay.mul_f64(0.5 + fastrand::f64() / 2.0)` when jitter is enabled and
returns `delay` unchanged otherwise. -/
def Retry.apply_jitter (r : Retry) (rand : ℚ) (delay : ℚ) : ℚ :=
  if r.enable_jitter then delay * (1 / 2 + rand / 2) else delay

/-- Outcome of a call to `Retry::run`: a normal `Ok`/`Err` return, or
abnormal termination (a failed `assert!` or the final `unreachable!`),
tagged with the panic message of the source. -/
inductive Outcome (T E : Type) where
  | ok : T → Outcome T E
  | err : E → Outcome T E
  | fatal : String → Outcome T E
deriving DecidableEq

/-- Observable behaviour of one `Retry::run` call: its outcome, the
simulated start time of each invocation of `func` (so `times.length` is the
number of invocations), the durations slept between attempts, and the errors
reported to the `warn!` sink before each retry. -/
structure RunResult (T E : Type) where
  result : Outcome T E
  times : List ℚ
  sleeps : List ℚ
  warns : List E
deriving DecidableEq

/-- Panic message of the first `assert!` in `Retry::run` (src/lib.rs:86). -/
def attemptsMsg : String := "attempts must be greater than 0"

/-- Panic message of the second `assert!` in `Retry::run` (src/lib.rs:87-90). -/
def delayMsg : String := "retry delay cannot be negative"

/-- Panic message of `unreachable!()` (src/lib.rs:103). -/
def unreachableMsg : String := "internal error: entered unreachable code"

/-- Model of the `for i in 0..self.attempts` loop of `Retry::run`
(src/lib.rs:91-103).  `remaining` is the number of loop iterations left
(`self.attempts - i`); exhausting it is the loop falling through to
`unreachable!()`.  `i`, `delay` and `t` are the loop index, the current
delay and the simulated clock; `times`, `sleeps` and `warns` accumulate the
trace.  The branch structure mirrors the source `match`: success returns
`Ok` at once; failure on the last index (`i == self.attempts - 1`) returns
the error; any other failure warns, sleeps `apply_jitter(delay)`, multiplies
the delay by `delay_factor` and continues. -/
def Retry.runAux {T E : Type} (r : Retry) (func : Nat → ℚ → Except E T) (rng : Nat → ℚ) :
    Nat → Nat → ℚ → ℚ → List ℚ → List ℚ → List E → RunResult T E
  | 0, _, _, _, times, sleeps, warns =>
    ⟨Outcome.fatal unreachableMsg, times, sleeps, warns⟩
  | remaining + 1, i, delay, t, times, sleeps, warns =>
    match func i t with
    | Except.ok value => ⟨Outcome.ok value, times ++ [t], sleeps, warns⟩
    | Except.error e =>
      if i = r.attempts - 1 then ⟨Outcome.err e, times ++ [t], sleeps, warns⟩
      else
        r.runAux func rng remaining (i + 1) (delay * r.delay_factor)
          (t + r.apply_jitter (rng sleeps.length) delay)
          (times ++ [t]) (sleeps ++ [r.apply_jitter (rng sleeps.length) delay])
          (warns ++ [e])

/-- Model of `Retry::run` (src/lib.rs:82-104): the two `assert!`s — failing
one terminates the call before `func` is ever invoked — then the retry loop
starting from `delay = self.base_delay` at simulated time 0. -/
def Retry.run {T E : Type} (r : Retry) (func : Nat → ℚ → Except E T) (rng : Nat → ℚ) :
    RunResult T E :=
  if ¬ 0 < r.attempts then ⟨Outcome.fatal attemptsMsg, [], [], []⟩
  else if ¬ (Duration.ZERO ≤ r.base_delay ∧ 0 ≤ r.delay_factor) then
    ⟨Outcome.fatal delayMsg, [], [], []⟩
  else r.runAux func rng r.attempts 0 r.base_delay.secs 0 [] [] []

/-- Model of an `f64` as it reaches the `assert!` of `Retry::run`: NaN, or an
ordered (non-NaN) value identified by its exact rational position.  Only the
comparison with `0.0` is needed, and IEEE-754 comparisons involving NaN are
false. -/
inductive F64 where
  | nan : F64
  | fin : ℚ → F64
deriving DecidableEq

/-- IEEE-754 evaluation of `x >= 0.0` for an `f64`: false when `x` is NaN. -/
def F64.ge_zero : F64 → Bool
  | F64.nan => false
  | F64.fin q => decide (0 ≤ q)

/-- Model of the precondition phase of `Retry::run` (src/lib.rs:86-90) with
`delay_factor` kept as a raw `f64` (`F64`), before any idealisation to ℚ:
the two `assert!` conditions are evaluated in order; `none` means an
assertion failed, so the call terminates abnormally with `func` never having
been invoked; `some q` means both asserts passed, and the loop proceeds with
the (necessarily non-NaN, non-negative) factor `q`. -/
def runPreconditions (attempts : Nat) (base_delay : Duration) (delay_factor : F64) :
    Option ℚ :=
  if ¬ 0 < attempts then none
  else if ¬ (Duration.ZERO ≤ base_delay ∧ delay_factor.ge_zero = true) then none
  else
    match delay_factor with
    | F64.nan => none
    | F64.fin q => some q

/-- Name used by the concrete test configurations below (the source's own
test suite uses the same label). -/
def nmTest : String := "test"

/-- Degenerate random stream: every draw is 0 (a legal `fastrand::f64()`
value, the low end of `[0, 1)`). -/
def rng0 (_ : Nat) : ℚ := 0

/-- Error payload used by the concrete always-failing operations: invocation
`j` fails with the error `j` itself. -/
def failNat (j : Nat) (_ : ℚ) : Nat := j

/-- One second, as a `Duration`. -/
def oneSec : Duration := ⟨1, by norm_num⟩

/-- Configuration of the source's `delayed_retry` test: 5 attempts, base
delay 1 s, delay factor 2, no jitter. -/
def p5cfg : Retry :=
  (((Retry.new nmTest).set_attempts 5).set_base_delay oneSec).set_delay_factor 2

/-- Operation of the source's `delayed_retry` test: fails while the elapsed
simulated time is below 5 s, succeeds afterwards. -/
def func5 (_ : Nat) (t : ℚ) : Except Unit Unit :=
  if t < 5 then Except.error () else Except.ok ()

/-- Operation that fails on its first invocation and succeeds (with value 7)
on every later one: first success on attempt 2. -/
def succ2f (j : Nat) (_ : ℚ) : Except Nat Nat :=
  if j = 0 then Except.error 0 else Except.ok 7

/-- Two-attempt configuration with jitter enabled. -/
def jcfg : Retry := ((Retry.new nmTest).set_attempts 2).jitter true

theorem Duration.le_def (a b : Duration) : (a ≤ b) = (a.secs ≤ b.secs) := rfl

/-- Unfolding of `Retry.run` for a configuration that passes both
`assert!`s (`base_delay` cannot fail its half of the second assert: the
`Duration` type is non-negative by construction). -/
theorem Retry.run_eq_runAux {T E : Type} (r : Retry) (func : Nat → ℚ → Except E T)
    (rng : Nat → ℚ) (hA : 0 < r.attempts) (hF : 0 ≤ r.delay_factor) :
    r.run func rng = r.runAux func rng r.attempts 0 r.base_delay.secs 0 [] [] [] := by
  have hd : Duration.ZERO ≤ r.base_delay := r.base_delay.nonneg
  simp [Retry.run, hA, hF, hd]

/-- Shape of the sleep trace of the loop, for an arbitrary operation: the
loop only ever appends sleeps, and the `k`-th appended sleep applies jitter
to the geometrically grown delay `delay * delay_factor ^ k` using the random
draw whose index continues the accumulator (`sleeps.length + k`). -/
theorem Retry.runAux_sleeps_shape {T E : Type} (r : Retry) (func : Nat → ℚ → Except E T)
    (rng : Nat → ℚ) :
    ∀ (m i : Nat) (delay t : ℚ) (times sleeps : List ℚ) (warns : List E),
      ∃ ss : List ℚ,
        (r.runAux func rng m i delay t times sleeps warns).sleeps = sleeps ++ ss ∧
        ∀ k (h : k < ss.length),
          ss.get ⟨k, h⟩ =
            r.apply_jitter (rng (sleeps.length + k)) (delay * r.delay_factor ^ k) := by
  intro m
  induction m with
  | zero =>
    intro i delay t times sleeps warns
    refine ⟨[], by simp [Retry.runAux], ?_⟩
    intro k h
    simp at h
  | succ m ih =>
    intro i delay t times sleeps warns
    cases hf : func i t with
    | ok value =>
      refine ⟨[], by simp [Retry.runAux, hf], ?_⟩
      intro k h
      simp at h
    | error e =>
      by_cases hi : i = r.attempts - 1
      · subst hi
        refine ⟨[], by simp [Retry.runAux, hf], ?_⟩
        intro k h
        simp at h
      · have hstep : r.runAux func rng (m + 1) i delay t times sleeps warns
            = r.runAux func rng m (i + 1) (delay * r.delay_factor)
                (t + r.apply_jitter (rng sleeps.length) delay)
                (times ++ [t]) (sleeps ++ [r.apply_jitter (rng sleeps.length) delay])
                (warns ++ [e]) := by
          simp [Retry.runAux, hf, hi]
        obtain ⟨ss, hss, hget⟩ := ih (i + 1) (delay * r.delay_factor)
          (t + r.apply_jitter (rng sleeps.length) delay) (times ++ [t])
          (sleeps ++ [r.apply_jitter (rng sleeps.length) delay]) (warns ++ [e])
        refine ⟨r.apply_jitter (rng sleeps.length) delay :: ss, ?_, ?_⟩
        · rw [hstep, hss]
          simp
        · intro k h
          match k with
          | 0 => simp
          | k + 1 =>
            have hk : k < ss.length := by simpa using h
            have := hget k hk
            simp only [List.length_append, List.length_cons, List.length_nil] at this
            rw [List.get_cons_succ]
            rw [this]
            rw [show sleeps.length + 1 + k = sleeps.length + (k + 1) from by omega]
            rw [show delay * r.delay_factor * r.delay_factor ^ k
                  = delay * r.delay_factor ^ (k + 1) from by ring]

/-- The loop never reaches `unreachable!()` while iterations remain: started
with `remaining = attempts - i > 0` iterations left, it returns via the `Ok`
or the last-index `Err` branch. -/
theorem Retry.runAux_ne_unreachable {T E : Type} (r : Retry) (func : Nat → ℚ → Except E T)
    (rng : Nat → ℚ) :
    ∀ (m i : Nat) (delay t : ℚ) (times sleeps : List ℚ) (warns : List E),
      m ≠ 0 → i + m = r.attempts →
      (r.runAux func rng m i delay t times sleeps warns).result ≠
        Outcome.fatal unreachableMsg := by
  intro m
  induction m with
  | zero =>
    intro i delay t times sleeps warns hm
    exact absurd rfl hm
  | succ m ih =>
    intro i delay t times sleeps warns _ hsum
    cases hf : func i t with
    | ok value =>
      simp [Retry.runAux, hf]
    | error e =>
      by_cases hi : i = r.attempts - 1
      · subst hi
        simp [Retry.runAux, hf]
      · have hm : m ≠ 0 := by
          intro h0
          subst h0
          omega
        have hstep : r.runAux func rng (m + 1) i delay t times sleeps warns
            = r.runAux func rng m (i + 1) (delay * r.delay_factor)
                (t + r.apply_jitter (rng sleeps.length) delay)
                (times ++ [t]) (sleeps ++ [r.apply_jitter (rng sleeps.length) delay])
                (warns ++ [e]) := by
          simp [Retry.runAux, hf, hi]
        rw [hstep]
        exact ih (i + 1) _ _ _ _ _ hm (by omega)

/-- Started with `remaining = attempts - i > 0` iterations left, the loop
returns a normal value: via the `Ok` branch of some iteration or via the
last-index `Err` branch. -/
theorem Retry.runAux_ok_or_err {T E : Type} (r : Retry) (func : Nat → ℚ → Except E T)
    (rng : Nat → ℚ) :
    ∀ (m i : Nat) (delay t : ℚ) (times sleeps : List ℚ) (warns : List E),
      m ≠ 0 → i + m = r.attempts →
      (∃ v, (r.runAux func rng m i delay t times sleeps warns).result = Outcome.ok v) ∨
      ∃ e, (r.runAux func rng m i delay t times sleeps warns).result = Outcome.err e := by
  intro m
  induction m with
  | zero =>
    intro i delay t times sleeps warns hm
    exact absurd rfl hm
  | succ m ih =>
    intro i delay t times sleeps warns _ hsum
    cases hf : func i t with
    | ok value =>
      exact Or.inl ⟨value, by simp [Retry.runAux, hf]⟩
    | error e =>
      by_cases hi : i = r.attempts - 1
      · subst hi
        exact Or.inr ⟨e, by simp [Retry.runAux, hf]⟩
      · have hm : m ≠ 0 := by
          intro h0
          subst h0
          omega
        have hstep : r.runAux func rng (m + 1) i delay t times sleeps warns
            = r.runAux func rng m (i + 1) (delay * r.delay_factor)
                (t + r.apply_jitter (rng sleeps.length) delay)
                (times ++ [t]) (sleeps ++ [r.apply_jitter (rng sleeps.length) delay])
                (warns ++ [e]) := by
          simp [Retry.runAux, hf, hi]
        rw [hstep]
        exact ih (i + 1) _ _ _ _ _ hm (by omega)

/-- Behaviour of the loop on an operation that fails on every invocation
(failing with `errf j u` on invocation `j` at time `u`): all `m` remaining
iterations are used; the returned error is the one produced by the final
invocation, at the final invocation time; every earlier iteration reports
its own error, in order, to the `warn!` sink. -/
theorem Retry.runAux_fail_spec {T E : Type} (r : Retry) (errf : Nat → ℚ → E) (rng : Nat → ℚ) :
    ∀ (m i : Nat) (delay t : ℚ) (times sleeps : List ℚ) (warns : List E),
      0 < m → i + m = r.attempts →
      ∃ (ts : List ℚ) (ws : List E) (tl : ℚ),
        (r.runAux (fun j u => (Except.error (errf j u) : Except E T)) rng
            m i delay t times sleeps warns).result = Outcome.err (errf (r.attempts - 1) tl) ∧
        (r.runAux (fun j u => (Except.error (errf j u) : Except E T)) rng
            m i delay t times sleeps warns).times = times ++ ts ∧
        ts.length = m ∧ ts.getLast? = some tl ∧
        (r.runAux (fun j u => (Except.error (errf j u) : Except E T)) rng
            m i delay t times sleeps warns).warns = warns ++ ws ∧
        ws.length = m - 1 ∧
        ∀ k (h1 : k < ws.length) (h2 : k < ts.length),
          ws.get ⟨k, h1⟩ = errf (i + k) (ts.get ⟨k, h2⟩) := by
  intro m
  induction m with
  | zero =>
    intro i delay t times sleeps warns hm
    exact absurd hm (by omega)
  | succ m ih =>
    intro i delay t times sleeps warns _ hsum
    by_cases hm : m = 0
    · subst hm
      have hi : i = r.attempts - 1 := by omega
      refine ⟨[t], [], t, ?_, ?_, ?_, ?_, ?_, ?_, ?_⟩
      · simp [Retry.runAux, hi]
      · simp [Retry.runAux, hi]
      · simp
      · simp
      · simp [Retry.runAux, hi]
      · simp
      · intro k h1
        simp at h1
    · have hi : ¬ i = r.attempts - 1 := by omega
      have hstep : r.runAux (fun j u => (Except.error (errf j u) : Except E T)) rng
            (m + 1) i delay t times sleeps warns
          = r.runAux (fun j u => (Except.error (errf j u) : Except E T)) rng
              m (i + 1) (delay * r.delay_factor)
              (t + r.apply_jitter (rng sleeps.length) delay)
              (times ++ [t]) (sleeps ++ [r.apply_jitter (rng sleeps.length) delay])
              (warns ++ [errf i t]) := by
        simp [Retry.runAux, hi]
      obtain ⟨ts, ws, tl, hres, htimes, hlen, hlast, hwarns, hwlen, hidx⟩ :=
        ih (i + 1) (delay * r.delay_factor)
          (t + r.apply_jitter (rng sleeps.length) delay) (times ++ [t])
          (sleeps ++ [r.apply_jitter (rng sleeps.length) delay]) (warns ++ [errf i t])
          (by omega) (by omega)
      rw [hstep]
      refine ⟨t :: ts, errf i t :: ws, tl, hres, ?_, ?_, ?_, ?_, ?_, ?_⟩
      · rw [htimes]
        simp
      · simp [hlen]
      · match ts, hlen with
        | b :: l, _ => rw [List.getLast?_cons_cons]; exact hlast
      · rw [hwarns]
        simp
      · simp [hwlen]
        omega
      · intro k h1 h2
        match k with
        | 0 => simp
        | k + 1 =>
          have h1' : k < ws.length := by simpa using h1
          have h2' : k < ts.length := by simpa using h2
          have := hidx k h1' h2'
          simp only [List.get_cons_succ]
          rw [this]
          rw [show i + 1 + k = i + (k + 1) from by omega]

/-- Behaviour of the loop on an operation whose first success comes on its
`k`-th remaining invocation (1-based): invocations `0 .. k-2` relative to the
current index fail, invocation `k-1` succeeds.  Exactly `k` further
invocations are made, no sleep follows the successful one, and the success
value of the final invocation is returned. -/
theorem Retry.runAux_success_spec {T E : Type} (r : Retry) (func : Nat → ℚ → Except E T)
    (rng : Nat → ℚ) :
    ∀ (k m i : Nat) (delay t : ℚ) (times sleeps : List ℚ) (warns : List E),
      1 ≤ k → k ≤ m → i + m = r.attempts →
      (∀ j u, j < k - 1 → ∃ e, func (i + j) u = Except.error e) →
      (∀ u, ∃ v, func (i + (k - 1)) u = Except.ok v) →
      ∃ (ts : List ℚ) (tl : ℚ) (v : T),
        (r.runAux func rng m i delay t times sleeps warns).times = times ++ ts ∧
        ts.length = k ∧ ts.getLast? = some tl ∧
        func (i + (k - 1)) tl = Except.ok v ∧
        (r.runAux func rng m i delay t times sleeps warns).result = Outcome.ok v ∧
        (r.runAux func rng m i delay t times sleeps warns).sleeps.length
          = sleeps.length + (k - 1) := by
  intro k
  induction k with
  | zero =>
    intro m i delay t times sleeps warns hk
    exact absurd hk (by omega)
  | succ k ih =>
    intro m i delay t times sleeps warns _ hkm hsum hfail hsucc
    by_cases hk : k = 0
    · subst hk
      obtain ⟨m, rfl⟩ : ∃ m', m = m' + 1 := ⟨m - 1, by omega⟩
      obtain ⟨v, hv⟩ := hsucc t
      rw [show i + (0 + 1 - 1) = i from by omega] at hv
      refine ⟨[t], t, v, ?_, ?_, ?_, ?_, ?_, ?_⟩
      · simp [Retry.runAux, hv]
      · simp
      · simp
      · simpa using hv
      · simp [Retry.runAux, hv]
      · simp [Retry.runAux, hv]
    · obtain ⟨m, rfl⟩ : ∃ m', m = m' + 1 := ⟨m - 1, by omega⟩
      obtain ⟨e, he⟩ := hfail 0 t (by omega)
      simp only [Nat.add_zero] at he
      have hi : ¬ i = r.attempts - 1 := by omega
      have hstep : r.runAux func rng (m + 1) i delay t times sleeps warns
          = r.runAux func rng m (i + 1) (delay * r.delay_factor)
              (t + r.apply_jitter (rng sleeps.length) delay)
              (times ++ [t]) (sleeps ++ [r.apply_jitter (rng sleeps.length) delay])
              (warns ++ [e]) := by
        simp [Retry.runAux, he, hi]
      have hfail' : ∀ j u, j < k - 1 → ∃ e, func (i + 1 + j) u = Except.error e := by
        intro j u hj
        obtain ⟨e', he'⟩ := hfail (j + 1) u (by omega)
        exact ⟨e', by rw [show i + 1 + j = i + (j + 1) from by omega]; exact he'⟩
      have hsucc' : ∀ u, ∃ v, func (i + 1 + (k - 1)) u = Except.ok v := by
        intro u
        obtain ⟨v, hv⟩ := hsucc u
        exact ⟨v, by rw [show i + 1 + (k - 1) = i + (k + 1 - 1) from by omega]; exact hv⟩
      obtain ⟨ts, tl, v, htimes, hlen, hlast, hok, hres, hsleeps⟩ :=
        ih (m := m) (i + 1) (delay * r.delay_factor)
          (t + r.apply_jitter (rng sleeps.length) delay) (times ++ [t])
          (sleeps ++ [r.apply_jitter (rng sleeps.length) delay]) (warns ++ [e])
          (by omega) (by omega) (by omega) hfail' hsucc'
      rw [hstep]
      refine ⟨t :: ts, tl, v, ?_, ?_, ?_, ?_, hres, ?_⟩
      · rw [htimes]
        simp
      · simp [hlen]
      · match ts, hlen with
        | b :: l, _ => rw [List.getLast?_cons_cons]; exact hlast
      · rw [show i + (k + 1 - 1) = i + 1 + (k - 1) from by omega]
        exact hok
      · rw [hsleeps]
        simp only [List.length_append, List.length_cons, List.length_nil]
        omega

/-- Every slept duration of a `run` call, for an arbitrary operation: the
`k`-th sleep (0-based) applies jitter to the scheduled delay
`base_delay * delay_factor ^ k` using the `k`-th draw of the random stream.
When an `assert!` fails the sleep trace is empty and the statement is
vacuous. -/
theorem Retry.run_sleeps_formula {T E : Type} (r : Retry) (func : Nat → ℚ → Except E T)
    (rng : Nat → ℚ) :
    ∀ k, k < (r.run func rng).sleeps.length →
      (r.run func rng).sleeps.get? k
        = some (r.apply_jitter (rng k) (r.base_delay.secs * r.delay_factor ^ k)) := by
  intro k hk
  by_cases hA : 0 < r.attempts
  · by_cases hF : 0 ≤ r.delay_factor
    · rw [Retry.run_eq_runAux r func rng hA hF] at hk ⊢
      obtain ⟨ss, hss, hget⟩ :=
        r.runAux_sleeps_shape func rng r.attempts 0 r.base_delay.secs 0 [] [] []
      rw [hss] at hk ⊢
      simp only [List.nil_append] at hk ⊢
      rw [List.get?_eq_get hk, hget k hk]
      simp
    · have hB : ¬ (Duration.ZERO ≤ r.base_delay ∧ 0 ≤ r.delay_factor) := fun h => hF h.2
      simp [Retry.run, hA, hB] at hk
  · simp [Retry.run, hA] at hk

/-- Claim C1: for every policy with `attempts = N ≥ 1` (and a delay factor
satisfying the data-model invariant `delayFactor ≥ 0`, without which `run`
does not reach the loop) and every operation that fails on every invocation,
`run` invokes the operation exactly `N` times and returns the error produced
by the `N`-th (final) invocation, i.e. the error the operation produces at
invocation index `N - 1` at the final invocation time. -/
theorem retry_run_attempts_bound {T E : Type} (r : Retry) (errf : Nat → ℚ → E)
    (rng : Nat → ℚ) (hA : 0 < r.attempts) (hF : 0 ≤ r.delay_factor) :
    (r.run (fun j u => (Except.error (errf j u) : Except E T)) rng).times.length
        = r.attempts ∧
    ∃ tl,
      (r.run (fun j u => (Except.error (errf j u) : Except E T)) rng).times.getLast?
          = some tl ∧
      (r.run (fun j u => (Except.error (errf j u) : Except E T)) rng).result
          = Outcome.err (errf (r.attempts - 1) tl) := by
  rw [Retry.run_eq_runAux r _ rng hA hF]
  obtain ⟨ts, ws, tl, hres, htimes, hlen, hlast, -, -, -⟩ :=
    r.runAux_fail_spec errf rng r.attempts 0 r.base_delay.secs 0 [] [] [] hA (by omega)
  refine ⟨?_, tl, ?_, hres⟩
  · rw [htimes]
    simp [hlen]
  · rw [htimes]
    simpa using hlast

/-- Witness for claim C1: the default policy (3 attempts) with an operation
failing on every invocation. -/
theorem retry_run_attempts_bound_witness :
    ((Retry.new nmTest).run
        (fun j u => (Except.error (failNat j u) : Except Nat Unit)) rng0).times.length
        = (Retry.new nmTest).attempts ∧
    ∃ tl,
      ((Retry.new nmTest).run
          (fun j u => (Except.error (failNat j u) : Except Nat Unit)) rng0).times.getLast?
          = some tl ∧
      ((Retry.new nmTest).run
          (fun j u => (Except.error (failNat j u) : Except Nat Unit)) rng0).result
          = Outcome.err (failNat ((Retry.new nmTest).attempts - 1) tl) :=
  retry_run_attempts_bound (Retry.new nmTest) failNat rng0 (by decide) (by decide)

/-- Claim C2: for every policy with `attempts = N` (valid: `N ≥ 1`,
`delayFactor ≥ 0`) and every operation whose first success comes on attempt
`k ≤ N` (invocations `0 .. k-2` fail, invocation `k-1` succeeds), `run`
invokes the operation exactly `k` times, performs no sleep after the
successful attempt (exactly `k - 1` sleeps happen, all before it), and
returns the success value produced by that `k`-th invocation. -/
theorem retry_run_early_success {T E : Type} (r : Retry) (func : Nat → ℚ → Except E T)
    (rng : Nat → ℚ) (k : Nat) (hk1 : 1 ≤ k) (hkN : k ≤ r.attempts)
    (hF : 0 ≤ r.delay_factor)
    (hfail : ∀ j u, j < k - 1 → ∃ e, func j u = Except.error e)
    (hsucc : ∀ u, ∃ v, func (k - 1) u = Except.ok v) :
    (r.run func rng).times.length = k ∧
    (r.run func rng).sleeps.length = k - 1 ∧
    ∃ tl v,
      (r.run func rng).times.getLast? = some tl ∧
      func (k - 1) tl = Except.ok v ∧
      (r.run func rng).result = Outcome.ok v := by
  have hA : 0 < r.attempts := by omega
  rw [Retry.run_eq_runAux r func rng hA hF]
  obtain ⟨ts, tl, v, htimes, hlen, hlast, hok, hres, hsleeps⟩ :=
    r.runAux_success_spec func rng k r.attempts 0 r.base_delay.secs 0 [] [] []
      hk1 hkN (by omega)
      (by intro j u hj; simpa using hfail j u hj)
      (by intro u; simpa using hsucc u)
  refine ⟨?_, ?_, tl, v, ?_, ?_, hres⟩
  · rw [htimes]
    simp [hlen]
  · rw [hsleeps]
    simp
  · rw [htimes]
    simpa using hlast
  · simpa using hok

/-- Witness for claim C2: the default policy (3 attempts) with an operation
failing on invocation 0 and succeeding from invocation 1 on, so its first
success is on attempt `k = 2`. -/
theorem retry_run_early_success_witness :
    ((Retry.new nmTest).run succ2f rng0).times.length = 2 ∧
    ((Retry.new nmTest).run succ2f rng0).sleeps.length = 2 - 1 ∧
    ∃ tl v,
      ((Retry.new nmTest).run succ2f rng0).times.getLast? = some tl ∧
      succ2f (2 - 1) tl = Except.ok v ∧
      ((Retry.new nmTest).run succ2f rng0).result = Outcome.ok v :=
  retry_run_early_success (Retry.new nmTest) succ2f rng0 2 (by decide) (by decide)
    (by decide)
    (by
      intro j u hj
      have hj0 : j = 0 := by omega
      subst hj0
      exact ⟨0, rfl⟩)
    (fun u => ⟨7, rfl⟩)

/-- Claim C3: the preconditions are checked at the start of every `run`
call: if `attempts = 0`, or `baseDelay < 0` (impossible for the `Duration`
type, hence a vacuous disjunct), or `delayFactor < 0`, then `run` terminates
abnormally with a panic message — it does not return an `Ok`/`Err` value —
and the operation is never invoked (`times = []`). -/
theorem retry_run_fatal_misconfiguration {T E : Type} (r : Retry)
    (func : Nat → ℚ → Except E T) (rng : Nat → ℚ)
    (h : r.attempts = 0 ∨ r.base_delay.secs < 0 ∨ r.delay_factor < 0) :
    ∃ msg, (r.run func rng).result = Outcome.fatal msg ∧ (r.run func rng).times = [] := by
  rcases h with h | h | h
  · have hA : ¬ 0 < r.attempts := by omega
    exact ⟨attemptsMsg, by simp [Retry.run, hA], by simp [Retry.run, hA]⟩
  · exact absurd h (not_lt.mpr r.base_delay.nonneg)
  · by_cases hA : 0 < r.attempts
    · have hB : ¬ (Duration.ZERO ≤ r.base_delay ∧ 0 ≤ r.delay_factor) := by
        intro hc
        exact absurd h (not_lt.mpr hc.2)
      exact ⟨delayMsg, by simp [Retry.run, hA, hB], by simp [Retry.run, hA, hB]⟩
    · exact ⟨attemptsMsg, by simp [Retry.run, hA], by simp [Retry.run, hA]⟩

/-- Witness for claim C3: `attempts = 0` panics before the (always
succeeding) operation is ever invoked. -/
theorem retry_run_fatal_misconfiguration_witness :
    ∃ msg,
      (((Retry.new nmTest).set_attempts 0).run
          (fun _ _ => (Except.ok () : Except Nat Unit)) rng0).result
        = Outcome.fatal msg ∧
      (((Retry.new nmTest).set_attempts 0).run
          (fun _ _ => (Except.ok () : Except Nat Unit)) rng0).times = [] :=
  retry_run_fatal_misconfiguration ((Retry.new nmTest).set_attempts 0)
    (fun _ _ => (Except.ok () : Except Nat Unit)) rng0 (Or.inl rfl)

/-- Claim C7: for every policy with `attempts ≥ 1`, a `run` call never
executes the `unreachable!()` after the loop — its outcome is never the
`unreachable!` panic — and whenever the loop is actually entered (the second
`assert!` also passes, i.e. `delayFactor ≥ 0`), the loop returns within
`attempts` iterations via early success (`Ok`) or final-attempt failure
(`Err`). -/
theorem retry_run_unreachable_never_executed {T E : Type} (r : Retry)
    (func : Nat → ℚ → Except E T) (rng : Nat → ℚ) (hA : 1 ≤ r.attempts) :
    (r.run func rng).result ≠ Outcome.fatal unreachableMsg ∧
    (0 ≤ r.delay_factor →
      (∃ v, (r.run func rng).result = Outcome.ok v) ∨
      ∃ e, (r.run func rng).result = Outcome.err e) := by
  have hA' : 0 < r.attempts := hA
  constructor
  · by_cases hB : Duration.ZERO ≤ r.base_delay ∧ 0 ≤ r.delay_factor
    · rw [Retry.run_eq_runAux r func rng hA' hB.2]
      exact r.runAux_ne_unreachable func rng r.attempts 0 r.base_delay.secs 0 [] [] []
        (by omega) (by omega)
    · have : (r.run func rng).result = Outcome.fatal delayMsg := by
        simp [Retry.run, hA', hB]
      rw [this]
      intro hcontra
      have : delayMsg = unreachableMsg := by injection hcontra
      exact absurd this (by decide)
  · intro hF
    rw [Retry.run_eq_runAux r func rng hA' hF]
    exact r.runAux_ok_or_err func rng r.attempts 0 r.base_delay.secs 0 [] [] []
      (by omega) (by omega)

/-- Witness for claim C7: the default policy with an always-failing
operation does not end in the `unreachable!` panic, and returns normally. -/
theorem retry_run_unreachable_never_executed_witness :
    ((Retry.new nmTest).run
        (fun j u => (Except.error (failNat j u) : Except Nat Unit)) rng0).result
      ≠ Outcome.fatal unreachableMsg ∧
    (0 ≤ (Retry.new nmTest).delay_factor →
      (∃ v, ((Retry.new nmTest).run
          (fun j u => (Except.error (failNat j u) : Except Nat Unit)) rng0).result
          = Outcome.ok v) ∨
      ∃ e, ((Retry.new nmTest).run
          (fun j u => (Except.error (failNat j u) : Except Nat Unit)) rng0).result
          = Outcome.err e) :=
  retry_run_unreachable_never_executed (Retry.new nmTest)
    (fun j u => (Except.error (failNat j u) : Except Nat Unit)) rng0 (by decide)

/-- Claim C6: for every run of a valid policy in which all attempts fail,
the error returned is exactly the error value produced by the final attempt
(the operation's error at invocation index `attempts - 1`, at the final
invocation time, untransformed); each earlier attempt's error is passed to
the `warn!` sink (in order, one per non-final attempt) and does not appear
in the result. -/
theorem retry_run_last_error_returned {T E : Type} (r : Retry) (errf : Nat → ℚ → E)
    (rng : Nat → ℚ) (hA : 0 < r.attempts) (hF : 0 ≤ r.delay_factor) :
    (r.run (fun j u => (Except.error (errf j u) : Except E T)) rng).warns.length
        = r.attempts - 1 ∧
    (∀ k, k < (r.run (fun j u => (Except.error (errf j u) : Except E T)) rng).warns.length →
      ∃ tk,
        (r.run (fun j u => (Except.error (errf j u) : Except E T)) rng).times.get? k
            = some tk ∧
        (r.run (fun j u => (Except.error (errf j u) : Except E T)) rng).warns.get? k
            = some (errf k tk)) ∧
    ∃ tl,
      (r.run (fun j u => (Except.error (errf j u) : Except E T)) rng).times.getLast?
          = some tl ∧
      (r.run (fun j u => (Except.error (errf j u) : Except E T)) rng).result
          = Outcome.err (errf (r.attempts - 1) tl) := by
  rw [Retry.run_eq_runAux r _ rng hA hF]
  obtain ⟨ts, ws, tl, hres, htimes, hlen, hlast, hwarns, hwlen, hidx⟩ :=
    r.runAux_fail_spec errf rng r.attempts 0 r.base_delay.secs 0 [] [] [] hA (by omega)
  simp only [List.nil_append] at htimes hwarns
  refine ⟨?_, ?_, tl, ?_, hres⟩
  · rw [hwarns, hwlen]
  · intro k hk
    rw [hwarns] at hk
    have h2 : k < ts.length := by omega
    refine ⟨ts.get ⟨k, h2⟩, ?_, ?_⟩
    · rw [htimes]
      exact List.get?_eq_get h2
    · rw [hwarns, List.get?_eq_get hk, hidx k hk h2]
      simp
  · rw [htimes, hlast]

/-- Witness for claim C6: the default policy (3 attempts) with an operation
failing on every invocation; two warnings are emitted and the third error is
returned. -/
theorem retry_run_last_error_returned_witness :
    ((Retry.new nmTest).run
        (fun j u => (Except.error (failNat j u) : Except Nat Unit)) rng0).warns.length
        = (Retry.new nmTest).attempts - 1 ∧
    (∀ k, k < ((Retry.new nmTest).run
        (fun j u => (Except.error (failNat j u) : Except Nat Unit)) rng0).warns.length →
      ∃ tk,
        ((Retry.new nmTest).run
            (fun j u => (Except.error (failNat j u) : Except Nat Unit)) rng0).times.get? k
            = some tk ∧
        ((Retry.new nmTest).run
            (fun j u => (Except.error (failNat j u) : Except Nat Unit)) rng0).warns.get? k
            = some (failNat k tk)) ∧
    ∃ tl,
      ((Retry.new nmTest).run
          (fun j u => (Except.error (failNat j u) : Except Nat Unit)) rng0).times.getLast?
          = some tl ∧
      ((Retry.new nmTest).run
          (fun j u => (Except.error (failNat j u) : Except Nat Unit)) rng0).result
          = Outcome.err (failNat ((Retry.new nmTest).attempts - 1) tl) :=
  retry_run_last_error_returned (Retry.new nmTest) failNat rng0 (by decide) (by decide)

/-- Claim C4 counterexample: with jitter enabled, at scheduled delay `d = 0`
(a reachable schedule: the default `base_delay` is zero) and random draw
`r = 0 ∈ [0, 1)`, the slept duration `apply_jitter(0) = 0` does not lie in
the half-open interval `[0.5 * 0, 1.0 * 0) = ∅`: the claim's strict upper
bound `applyJitter(d) < d` fails for `d = 0`. -/
theorem retry_jitter_zero_delay_cex :
    (0 : ℚ) ≤ 0 ∧ (0 : ℚ) < 1 ∧
    ((Retry.new nmTest).jitter true).enable_jitter = true ∧
    ¬ (1 / 2 * 0 ≤ ((Retry.new nmTest).jitter true).apply_jitter 0 0 ∧
        ((Retry.new nmTest).jitter true).apply_jitter 0 0 < 1 * 0) := by
  refine ⟨le_refl 0, by norm_num, rfl, ?_⟩
  intro hc
  have h2 := hc.2
  norm_num [Retry.apply_jitter, Retry.jitter, Retry.new] at h2

/-- Claim C4 (amended): with jitter enabled, for every scheduled delay
`d > 0` and every random draw `r` uniform in `[0, 1)`, the slept duration
`applyJitter(d)` lies in `[0.5 d, 1.0 d)` — it never reaches or exceeds `d`
(for `d = 0` the slept duration is `0`, and the half-open interval is
empty); and a fresh random draw is consumed on every retry: the `k`-th sleep
of any `run` call uses the `k`-th draw of the random stream, not a value
fixed once per policy. -/
theorem retry_jitter_bounds_and_freshness :
    (∀ (r : Retry) (rand d : ℚ), r.enable_jitter = true → 0 < d → 0 ≤ rand → rand < 1 →
        1 / 2 * d ≤ r.apply_jitter rand d ∧ r.apply_jitter rand d < 1 * d) ∧
    (∀ (T E : Type) (func : Nat → ℚ → Except E T) (rng : Nat → ℚ) (r : Retry) (k : Nat),
        k < (r.run func rng).sleeps.length →
        (r.run func rng).sleeps.get? k
          = some (r.apply_jitter (rng k) (r.base_delay.secs * r.delay_factor ^ k))) := by
  constructor
  · intro r rand d hj hd hr0 hr1
    simp only [Retry.apply_jitter, hj, if_true]
    constructor
    · nlinarith [mul_nonneg hd.le hr0]
    · nlinarith [mul_pos hd (show (0 : ℚ) < 1 - rand by linarith)]
  · intro T E func rng r k hk
    exact r.run_sleeps_formula func rng k hk

/-- Witness for claim C4 (amended): the bounds at `d = 1`, `r = 0`, and the
freshness formula for the first sleep of a concrete jittered run. -/
theorem retry_jitter_bounds_and_freshness_witness :
    (1 / 2 * 1 ≤ ((Retry.new nmTest).jitter true).apply_jitter 0 1 ∧
      ((Retry.new nmTest).jitter true).apply_jitter 0 1 < 1 * 1) ∧
    (jcfg.run (fun j u => (Except.error (failNat j u) : Except Nat Unit)) rng0).sleeps.get? 0
      = some (jcfg.apply_jitter (rng0 0) (jcfg.base_delay.secs * jcfg.delay_factor ^ 0)) := by
  constructor
  · exact retry_jitter_bounds_and_freshness.1 ((Retry.new nmTest).jitter true) 0 1 rfl
      (by norm_num) (by norm_num) (by norm_num)
  · refine retry_jitter_bounds_and_freshness.2 Unit Nat _ rng0 jcfg 0 ?_
    norm_num [Retry.run, Retry.runAux, Retry.apply_jitter, jcfg, Retry.new,
      Retry.set_attempts, Retry.jitter, rng0, failNat, nmTest, Duration.ZERO,
      Duration.le_def]

/-- Claim C5: the inter-attempt delay follows a geometric schedule — without
jitter, the sleep after the `i`-th failed attempt (1-based `i`, 0-based
`k = i - 1`) is exactly `baseDelay * delayFactor ^ (i - 1)` — and in the
concrete scenario `baseDelay = 1 s`, `delayFactor = 2`, `attempts = 5`, with
an operation failing until elapsed time ≥ 5 s, the operation is invoked at
simulated times 0, 1, 3, 7 (4 invocations, sleeps 1, 2, 4) and succeeds on
the 4th invocation. -/
theorem retry_exponential_schedule :
    (∀ (T E : Type) (func : Nat → ℚ → Except E T) (rng : Nat → ℚ) (r : Retry),
        r.enable_jitter = false →
        ∀ k, k < (r.run func rng).sleeps.length →
          (r.run func rng).sleeps.get? k
            = some (r.base_delay.secs * r.delay_factor ^ k)) ∧
    p5cfg.run func5 rng0
      = ⟨Outcome.ok (), [0, 1, 3, 7], [1, 2, 4], [(), (), ()]⟩ := by
  constructor
  · intro T E func rng r hj k hk
    rw [r.run_sleeps_formula func rng k hk]
    simp [Retry.apply_jitter, hj]
  · norm_num [Retry.run, Retry.runAux, Retry.apply_jitter, p5cfg, func5, rng0,
      Retry.new, Retry.set_attempts, Retry.set_base_delay, Retry.set_delay_factor,
      oneSec, nmTest, Duration.ZERO, Duration.le_def]

/-- Witness for claim C5: the first sleep of the concrete schedule equals
the formula `baseDelay * delayFactor ^ 0`. -/
theorem retry_exponential_schedule_witness :
    (p5cfg.run func5 rng0).sleeps.get? 0
      = some (p5cfg.base_delay.secs * p5cfg.delay_factor ^ 0) := by
  refine retry_exponential_schedule.1 Unit Unit func5 rng0 p5cfg rfl 0 ?_
  rw [retry_exponential_schedule.2]
  norm_num

/-- Claim C8: each builder operation (`attempts`, `base_delay`,
`delay_factor`, `jitter`) returns a new policy value in which exactly the
named field is set to the given value and every other field is unchanged.
(The Rust methods take `mut self` by value — a copy — so the policy a setter
is called on is never mutated as shared state; in this embedding `Retry` is
an immutable value and the setters are pure functions, which is that fact.) -/
theorem retry_builder_returns_updated_copy :
    ∀ (r : Retry) (n : Nat) (d : Duration) (f : ℚ) (b : Bool),
      ((r.set_attempts n).name = r.name ∧ (r.set_attempts n).attempts = n ∧
        (r.set_attempts n).base_delay = r.base_delay ∧
        (r.set_attempts n).delay_factor = r.delay_factor ∧
        (r.set_attempts n).enable_jitter = r.enable_jitter) ∧
      ((r.set_base_delay d).name = r.name ∧ (r.set_base_delay d).attempts = r.attempts ∧
        (r.set_base_delay d).base_delay = d ∧
        (r.set_base_delay d).delay_factor = r.delay_factor ∧
        (r.set_base_delay d).enable_jitter = r.enable_jitter) ∧
      ((r.set_delay_factor f).name = r.name ∧
        (r.set_delay_factor f).attempts = r.attempts ∧
        (r.set_delay_factor f).base_delay = r.base_delay ∧
        (r.set_delay_factor f).delay_factor = f ∧
        (r.set_delay_factor f).enable_jitter = r.enable_jitter) ∧
      ((r.jitter b).name = r.name ∧ (r.jitter b).attempts = r.attempts ∧
        (r.jitter b).base_delay = r.base_delay ∧
        (r.jitter b).delay_factor = r.delay_factor ∧
        (r.jitter b).enable_jitter = b) :=
  fun _ _ _ _ _ =>
    ⟨⟨rfl, rfl, rfl, rfl, rfl⟩, ⟨rfl, rfl, rfl, rfl, rfl⟩,
      ⟨rfl, rfl, rfl, rfl, rfl⟩, ⟨rfl, rfl, rfl, rfl, rfl⟩⟩

/-- Claim C9 (implicit): `Retry::new(name)` produces the defaults
`attempts = 3`, `base_delay = Duration::ZERO`, `delay_factor = 1.0`, jitter
disabled, with the given name. -/
theorem retry_new_defaults :
    ∀ s : String,
      (Retry.new s).name = s ∧ (Retry.new s).attempts = 3 ∧
      (Retry.new s).base_delay = Duration.ZERO ∧
      (Retry.new s).delay_factor = 1 ∧
      (Retry.new s).enable_jitter = false :=
  fun _ => ⟨rfl, rfl, rfl, rfl, rfl⟩

/-- Claim C10 (implicit): a NaN `delay_factor` is rejected by the
precondition check of `run` (IEEE-754 makes `NaN >= 0.0` false, so the
`assert!` fails and the call terminates abnormally before the operation is
invoked), while a negative `base_delay` is unrepresentable in the `Duration`
type, so that branch of the precondition is vacuously satisfied; altogether
the precondition phase aborts exactly when `attempts = 0` or
`delay_factor >= 0.0` evaluates to false. -/
theorem retry_nan_delay_factor_precondition :
    (∀ (a : Nat) (d : Duration), runPreconditions a d F64.nan = none) ∧
    (∀ d : Duration, Duration.ZERO ≤ d) ∧
    (∀ (a : Nat) (d : Duration) (f : F64),
        runPreconditions a d f = none ↔ (a = 0 ∨ f.ge_zero = false)) := by
  refine ⟨?_, ?_, ?_⟩
  · intro a d
    by_cases hA : 0 < a <;> simp [runPreconditions, hA, F64.ge_zero]
  · intro d
    exact d.nonneg
  · intro a d f
    have hd : Duration.ZERO ≤ d := d.nonneg
    by_cases hA : 0 < a
    · by_cases hF : f.ge_zero = true
      · cases f with
        | nan => simp [F64.ge_zero] at hF
        | fin q =>
          simp [runPreconditions, hA, hF, hd]
          omega
      · have hF' : f.ge_zero = false := by
          cases hfg : f.ge_zero
          · rfl
          · exact absurd hfg hF
        simp [runPreconditions, hA, hF', hF]
    · simp [runPreconditions, hA]
      omega
